import Mathlib

/-!
Verification of `wiki-to-leveldb.js` (yuryshulaev/wiki-import).

The development shallowly embeds the master/worker pipeline of the importer:
strings are `List Char`, the regular expressions of the source are translated
into executable decision functions, and the coordinator (record extraction,
round-robin dispatch, batched persistence, flow control) is a small-step
state machine over an explicit `MState`.
-/

set_option autoImplicit false

namespace WikiImport

/-- Strings of the embedded program: JavaScript strings as lists of characters. -/
abbrev Str := List Char

/-- JavaScript whitespace (the regex class `\s`, also the set removed by
`String.prototype.trim`): tab, line feed, vertical tab, form feed, carriage
return, space, NBSP, and the Unicode space separators and BOM. -/
def isJsSpace (c : Char) : Bool :=
  decide (c.toNat = 0x9 ∨ c.toNat = 0xA ∨ c.toNat = 0xB ∨ c.toNat = 0xC ∨ c.toNat = 0xD ∨
    c.toNat = 0x20 ∨ c.toNat = 0xA0 ∨ c.toNat = 0x1680 ∨
    (0x2000 ≤ c.toNat ∧ c.toNat ≤ 0x200A) ∨
    c.toNat = 0x2028 ∨ c.toNat = 0x2029 ∨ c.toNat = 0x202F ∨ c.toNat = 0x205F ∨
    c.toNat = 0x3000 ∨ c.toNat = 0xFEFF)

/-- JavaScript line terminators, the characters the regex `.` does not match. -/
def isLineTerm (c : Char) : Bool :=
  decide (c.toNat = 0xA ∨ c.toNat = 0xD ∨ c.toNat = 0x2028 ∨ c.toNat = 0x2029)

/-- Simple (per-character) uppercase mapping, modelling both
`String.prototype.toUpperCase` and the canonicalization used by the `i` regex
flag, restricted to the Basic Latin and Cyrillic blocks — the only blocks in
which this program's string literals (`Category`, `Категория`, `#redirect`)
distinguish case. -/
def jsToUpper (c : Char) : Char :=
  if 97 ≤ c.toNat ∧ c.toNat ≤ 122 then Char.ofNat (c.toNat - 32)
  else if 0x430 ≤ c.toNat ∧ c.toNat ≤ 0x44F then Char.ofNat (c.toNat - 0x20)
  else if c.toNat = 0x451 then Char.ofNat 0x401
  else c

/-- The regex class `\p{L}` restricted to the Basic Latin and Cyrillic blocks,
which cover every letter appearing in the namespace prefixes this program
distinguishes. -/
def isUnicodeLetter (c : Char) : Bool :=
  decide ((65 ≤ c.toNat ∧ c.toNat ≤ 90) ∨ (97 ≤ c.toNat ∧ c.toNat ≤ 122) ∨
    (0x400 ≤ c.toNat ∧ c.toNat ≤ 0x4FF))

/-- The regex class `\w`: ASCII letters, digits and underscore. -/
def isWordChar (c : Char) : Bool :=
  decide ((48 ≤ c.toNat ∧ c.toNat ≤ 57) ∨ (65 ≤ c.toNat ∧ c.toNat ≤ 90) ∨
    (97 ≤ c.toNat ∧ c.toNat ≤ 122) ∨ c.toNat = 95)

/-- `capitalizeFirst` from wiki-to-leveldb.js:
`string !== '' ? string[0].toUpperCase() + string.substr(1) : ''`. -/
def capitalizeFirst : Str → Str
  | [] => []
  | c :: rest => jsToUpper c :: rest

/-- `String.prototype.trim`, applied by the page handler to `page.title`. -/
def jsTrim (s : Str) : Str :=
  ((s.dropWhile isJsSpace).reverse.dropWhile isJsSpace).reverse

/-- Case-insensitive (simple-folding) test that `s` starts with the literal
`pat`, as performed by an `i`-flagged regex on a literal alternative. -/
def ciStartsWith (s pat : Str) : Bool :=
  (s.take pat.length).map jsToUpper == pat.map jsToUpper

/-- Test for the tail of the namespace regex `:\w` — the input continues with
a colon followed by one word character. -/
def colonWordAfter : Str → Bool
  | c :: d :: _ => c == ':' && isWordChar d
  | _ => false

/-- The namespace filter of the page handler: the regex
`/^(?!(Category|Категория):)\p{L}+:\w/ui` tested against the trimmed title.
A title is dropped (excluded) exactly when this returns `true`: it starts
with letters, a colon and a word character, and the negative lookahead does
not see one of the two allowed prefixes `Category:`/`Категория:`
(case-insensitively). Since `:` is not a letter, `\p{L}+` deterministically
matches the maximal leading letter run. -/
def excludedNamespace (title : Str) : Bool :=
  !(ciStartsWith title ("Category:".toList) || ciStartsWith title ("Категория:".toList)) &&
  !(title.takeWhile isUnicodeLetter).isEmpty &&
  colonWordAfter (title.drop (title.takeWhile isUnicodeLetter).length)

/-- Strip a literal prefix case-insensitively, returning the rest on success. -/
def stripCi (pat s : Str) : Option Str :=
  if ciStartsWith s pat then some (s.drop pat.length) else none

/-- Index of the last occurrence of `]]` in a string (`none` when absent).
This is where the greedy `(.+)` of the redirect regex stops. -/
def lastDB : Str → Option Nat
  | [] => none
  | [_] => none
  | a :: b :: rest =>
    match lastDB (b :: rest) with
    | some i => some (i + 1)
    | none => if a = ']' ∧ b = ']' then some 0 else none

/-- `source.match(/^#redirect:?\s*\[\[(.+)\]\]/i)`, returning the capture
group. After the case-insensitive literal `#redirect`, an optional colon and
greedy whitespace (all deterministic, since `:` is not whitespace and
whitespace is not `[`), the regex requires `[[` and then a nonempty capture
of non-line-terminator characters up to the last following `]]`. -/
def redirectTargetRaw (source : Str) : Option Str :=
  (stripCi ("#redirect".toList) source).bind fun r1 =>
    let r2 := match r1 with
      | ':' :: t => t
      | _ => r1
    match r2.dropWhile isJsSpace with
    | '[' :: '[' :: rest =>
      let line := rest.takeWhile (fun c => !isLineTerm c)
      (match lastDB line with
       | some i => if 1 ≤ i then some (line.take i) else none
       | none => none)
    | _ => none

/-! ### Data model of the pipeline -/

/-- Run configuration: `kWorkerCount`, `kMaxPagesInFlight` (10000 in the
source), `kBatchSize` (100 in the source) and the `--with-source` switch. -/
structure Config where
  workerCount : Nat
  maxInFlight : Nat
  batchSize : Nat
  withSource : Bool
  deriving DecidableEq

/-- A persisted value, abstracting the `JSON.stringify` payload: either a
redirect entry `{id, title, redirectTo, source?}` or a parsed page
`{id, title, ast, parseTime, backtrackingCount, source?}`. `α` is the type
of AST nodes produced by the external parser. -/
inductive StoredValue (α : Type)
  | redirect (id title redirectTo : Str) (source : Option Str)
  | page (id title : Str) (ast : List α) (parseTime backtrackingCount : Nat)
      (source : Option Str)
  deriving DecidableEq

/-- A `{key, value}` pair as handed to `write` and to `db.batch`. -/
structure Entry (α : Type) where
  key : Str
  value : StoredValue α
  deriving DecidableEq

/-- The `{id, title, source}` message sent to a worker. -/
structure RawRecord where
  id : Str
  title : Str
  source : Str
  deriving DecidableEq

/-- One `<page>` element of the dump: its id, title, and
`revision.text.$text` (absent text is read as `''` by `|| ''`). -/
structure Page where
  id : Str
  title : Str
  text : Option Str
  deriving DecidableEq

/-- Outcome of one call of the external parser (`wikiparse`, configured with
`returnError: true`): the returned AST or returned error value, together with
the parser's `backtrackingCount` read after the call and the measured wall
time of the call (environmental, hence part of the abstract outcome). -/
structure ParseOutcome (α : Type) where
  result : Except Str (List α)
  backtrackingCount : Nat
  parseTime : Nat

/-- A message received by a worker process: the `{command: 'disconnect'}`
shutdown signal or a record to parse. -/
inductive WorkerMsg
  | disconnect
  | record (m : RawRecord)

/-- What a worker does in reaction to one message: the reply it `process.send`s
(if any), whether it disconnected its channel, and the titles it logged via
`console.error`. -/
structure WorkerReaction (α : Type) where
  reply : Option (Entry α)
  disconnected : Bool
  logged : List Str
  deriving DecidableEq

/-- The worker's `process.on('message', ...)` handler: on `disconnect` it
disconnects; on a record it parses the source, substitutes an empty AST and
logs the title when the parser returned an error value, and sends back the
keyed entry. -/
def workerOnMessage {α : Type} (cfg : Config) (parse : Str → ParseOutcome α) :
    WorkerMsg → WorkerReaction α
  | .disconnect => { reply := none, disconnected := true, logged := [] }
  | .record m =>
    let out := parse m.source
    let ast := match out.result with
      | .ok a => a
      | .error _ => []
    let logged := match out.result with
      | .ok _ => []
      | .error _ => [m.title]
    { reply := some ⟨capitalizeFirst m.title,
        .page m.id m.title ast out.parseTime out.backtrackingCount
          (if cfg.withSource then some m.source else none)⟩,
      disconnected := false,
      logged := logged }

/-! ### Master state machine -/

/-- State of the master process (plus the in-flight channels of the run):
the remaining input pages, the counters `nRead`/`nWritten`/`nSentToWorkers`,
the pause flag of the source stream, whether the stream has closed, whether
the run has aborted fatally, the current un-flushed `batch`, the batches
submitted to `db.batch` whose callback is still pending, the LevelDB
contents (`store`, puts in application order), the per-worker message queues,
the worker replies in flight back to the master, a ghost log of the worker
index used by each dispatch, and the messages logged by `xml.on('error')`. -/
structure MState (α : Type) where
  input : List Page
  nRead : Nat
  nWritten : Nat
  nSentToWorkers : Nat
  paused : Bool
  closed : Bool
  aborted : Bool
  batch : List (Entry α)
  pending : List (List (Entry α))
  store : List (Entry α)
  queues : List (List RawRecord)
  responses : List (Entry α)
  dispatchLog : List Nat
  errorLog : List Str
  deriving DecidableEq

/-- Initial state of a run over the given dump pages. -/
def initState {α : Type} (cfg : Config) (pages : List Page) : MState α :=
  { input := pages, nRead := 0, nWritten := 0, nSentToWorkers := 0,
    paused := false, closed := false, aborted := false,
    batch := [], pending := [], store := [],
    queues := List.replicate cfg.workerCount [], responses := [],
    dispatchLog := [], errorLog := [] }

/-- The master's `write({key, value})`: push the entry onto `batch`; when the
batch reaches `kBatchSize`, splice it out and submit it as one `db.batch`
call (whose asynchronous callback is a later `Step.flushDone`). -/
def pushEntry {α : Type} (cfg : Config) (st : MState α) (e : Entry α) : MState α :=
  let b := st.batch ++ [e]
  if cfg.batchSize ≤ b.length then
    { st with batch := [], pending := st.pending ++ [b] }
  else
    { st with batch := b }

/-- The `xml.on('endElement: page')` handler. The trimmed title is tested
against the namespace regex; an excluded page is dropped without touching any
counter. Otherwise a redirect source is written directly with
`redirectTo = capitalizeFirst(target)`, and any other page is sent to worker
`nSentToWorkers % workerCount`; then `nRead` is incremented and, if
`nRead ≥ nWritten + kMaxPagesInFlight`, the stream is paused. -/
def handlePage {α : Type} (cfg : Config) (st : MState α) (p : Page) : MState α :=
  let title := jsTrim p.title
  let source := p.text.getD []
  if excludedNamespace title then st
  else
    let st1 :=
      match redirectTargetRaw source with
      | some target =>
        pushEntry cfg st
          ⟨capitalizeFirst title,
           .redirect p.id title (capitalizeFirst target)
             (if cfg.withSource then some source else none)⟩
      | none =>
        let i := st.nSentToWorkers % cfg.workerCount
        { st with
          queues := st.queues.set i (st.queues.getD i [] ++ [(⟨p.id, title, source⟩ : RawRecord)]),
          nSentToWorkers := st.nSentToWorkers + 1,
          dispatchLog := st.dispatchLog ++ [i] }
    let nRead1 := st1.nRead + 1
    { st1 with
      nRead := nRead1,
      paused := if st1.nWritten + cfg.maxInFlight ≤ nRead1 then true else st1.paused }

/-- Worker `i` handles the next record message queued to it, moving its reply
into the in-flight responses. -/
def workerStep {α : Type} (cfg : Config) (parse : Str → ParseOutcome α)
    (st : MState α) (i : Nat) : MState α :=
  match st.queues.getD i [] with
  | [] => st
  | m :: rest =>
    let r := workerOnMessage cfg parse (.record m)
    { st with
      queues := st.queues.set i rest,
      responses := st.responses ++ r.reply.toList }

/-- The master receives one in-flight worker reply: `worker.on('message', write)`. -/
def deliverStep {α : Type} (cfg : Config) (st : MState α) : MState α :=
  match st.responses with
  | [] => st
  | e :: rest => pushEntry cfg { st with responses := rest } e

/-- The success callback of the oldest outstanding `db.batch` call: the batch
is applied to the store, `nWritten` grows by its length, and the stream is
resumed if `nWritten ≥ nRead - kMaxPagesInFlight`. -/
def flushStep {α : Type} (cfg : Config) (st : MState α) : MState α :=
  match st.pending with
  | [] => st
  | b :: rest =>
    let nW := st.nWritten + b.length
    { st with
      pending := rest, store := st.store ++ b, nWritten := nW,
      paused := if st.nRead ≤ nW + cfg.maxInFlight then false else st.paused }

/-- Small-step transition relation of a run. `read` consumes the next page
while the source is unpaused (per the Source Reader contract, no further
records are delivered after `pause()`); `worker`, `deliver` and `flushDone`
fire the corresponding asynchronous completions; `closeStream` is the
`stream.on('close')` end of input (workers with queued work keep running,
since their `disconnect` message is queued behind the records); `xmlError`
is the `xml.on('error')` handler, which only logs; `streamError` is a hard
byte/decompression failure — no `error` listener is installed on the byte
stream, so Node's default for an unhandled `error` event throws and kills
the run. -/
inductive Step {α : Type} (cfg : Config) (parse : Str → ParseOutcome α) :
    MState α → MState α → Prop
  | read (st : MState α) (p : Page) (rest : List Page) :
      st.aborted = false → st.closed = false → st.paused = false →
      st.input = p :: rest →
      Step cfg parse st (handlePage cfg { st with input := rest } p)
  | worker (st : MState α) (i : Nat) :
      st.aborted = false → i < cfg.workerCount → st.queues.getD i [] ≠ [] →
      Step cfg parse st (workerStep cfg parse st i)
  | deliver (st : MState α) :
      st.aborted = false → st.responses ≠ [] →
      Step cfg parse st (deliverStep cfg st)
  | flushDone (st : MState α) :
      st.aborted = false → st.pending ≠ [] →
      Step cfg parse st (flushStep cfg st)
  | closeStream (st : MState α) :
      st.aborted = false → st.closed = false → st.input = [] →
      Step cfg parse st { st with closed := true }
  | xmlError (st : MState α) (msg : Str) :
      st.aborted = false →
      Step cfg parse st { st with errorLog := st.errorLog ++ [msg] }
  | streamError (st : MState α) :
      st.aborted = false → st.closed = false →
      Step cfg parse st { st with aborted := true }

/-- States reachable by a run over the given input. -/
def Reachable {α : Type} (cfg : Config) (parse : Str → ParseOutcome α)
    (pages : List Page) (st : MState α) : Prop :=
  Relation.ReflTransGen (Step cfg parse) (initState cfg pages) st

/-- LevelDB lookup over the applied puts: the last write per key wins. -/
def storeGet {α : Type} (store : List (Entry α)) (k : Str) : Option (StoredValue α) :=
  (store.reverse.find? (fun e => e.key == k)).map (fun e => e.value)

/-- Total length of a list of lists. -/
def sumLen {β : Type} (l : List (List β)) : Nat := (l.map List.length).sum

/-! ### Inductive invariant of the run -/

/-- Invariant preserved by every step of a run: conservation of records
(every accepted record is exactly one entry somewhere between the worker
queues, the in-flight replies, the batch, the outstanding `db.batch` calls
and `nWritten`), the un-flushed batch is always below `kBatchSize`, every
submitted batch has exactly `kBatchSize` entries, the worker pool has its
configured size, the in-flight window `nRead - nWritten` never exceeds
`kMaxPagesInFlight` (and is strictly below it while the stream is unpaused),
and the ghost dispatch log witnesses strict round-robin dispatch. -/
structure Inv {α : Type} (cfg : Config) (st : MState α) : Prop where
  conserve : st.nWritten + st.batch.length + sumLen st.pending + sumLen st.queues +
    st.responses.length = st.nRead
  batchLt : st.batch.length < cfg.batchSize
  pendingSizes : ∀ b ∈ st.pending, b.length = cfg.batchSize
  queuesLen : st.queues.length = cfg.workerCount
  gapLe : st.nRead ≤ st.nWritten + cfg.maxInFlight
  pausedLt : st.paused = false → st.nRead < st.nWritten + cfg.maxInFlight
  sentLen : st.nSentToWorkers = st.dispatchLog.length
  roundRobin : ∀ j, (h : j < st.dispatchLog.length) →
    st.dispatchLog.get ⟨j, h⟩ = j % cfg.workerCount

/-! ### Statements of the flow-control, dispatch and error-handling claims -/

/-- Conclusion of the flow-control claim: the in-flight window is bounded by
`maxInFlight + batchSize - 1`; accepting a record that makes
`nRead - nWritten ≥ maxInFlight` pauses the stream; a flush that brings
`nRead - nWritten` back to at most `maxInFlight` resumes it. -/
def FlowConclusion (α : Type) (cfg : Config) (st : MState α) : Prop :=
  st.nRead ≤ st.nWritten + (cfg.maxInFlight + cfg.batchSize - 1) ∧
  (∀ s : MState α, ∀ p : Page, excludedNamespace (jsTrim p.title) = false →
    (handlePage cfg s p).nWritten + cfg.maxInFlight ≤ (handlePage cfg s p).nRead →
    (handlePage cfg s p).paused = true) ∧
  (∀ s : MState α, s.pending ≠ [] →
    (flushStep cfg s).nRead ≤ (flushStep cfg s).nWritten + cfg.maxInFlight →
    (flushStep cfg s).paused = false)

/-- Conclusion of the round-robin claim: the send counter equals the number
of dispatches, the `j`-th dispatch went to worker `j mod workerCount`, a
non-excluded non-redirect page increments the counter by one and appends its
worker index, and an excluded or redirect page touches neither. -/
def RoundRobinConclusion (α : Type) (cfg : Config) (st : MState α) : Prop :=
  st.nSentToWorkers = st.dispatchLog.length ∧
  (∀ j, (h : j < st.dispatchLog.length) →
    st.dispatchLog.get ⟨j, h⟩ = j % cfg.workerCount) ∧
  (∀ s : MState α, ∀ p : Page,
    excludedNamespace (jsTrim p.title) = false →
    redirectTargetRaw (p.text.getD []) = none →
      (handlePage cfg s p).nSentToWorkers = s.nSentToWorkers + 1 ∧
      (handlePage cfg s p).dispatchLog =
        s.dispatchLog ++ [s.nSentToWorkers % cfg.workerCount]) ∧
  (∀ s : MState α, ∀ p : Page,
    excludedNamespace (jsTrim p.title) = true ∨ redirectTargetRaw (p.text.getD []) ≠ none →
      (handlePage cfg s p).nSentToWorkers = s.nSentToWorkers ∧
      (handlePage cfg s p).dispatchLog = s.dispatchLog)

/-- Conclusion of the stream-error claim: a hard byte/decode failure moves
the run into the aborted state, from which no step is possible; an XML
element error only appends to the error log following the code and leaves every other
component of the state unchanged, and the run is not aborted by it. -/
def ErrorConclusion (α : Type) (cfg : Config) (parse : Str → ParseOutcome α)
    (st : MState α) (msg : Str) : Prop :=
  (Step cfg parse st { st with aborted := true } ∧
   ({ st with aborted := true } : MState α).aborted = true ∧
   (∀ st2 : MState α, ¬ Step cfg parse { st with aborted := true } st2)) ∧
  (Step cfg parse st { st with errorLog := st.errorLog ++ [msg] } ∧
   ({ st with errorLog := st.errorLog ++ [msg] } : MState α).aborted = false ∧
   ({ st with errorLog := st.errorLog ++ [msg] } : MState α).store = st.store ∧
   ({ st with errorLog := st.errorLog ++ [msg] } : MState α).nRead = st.nRead ∧
   ({ st with errorLog := st.errorLog ++ [msg] } : MState α).nWritten = st.nWritten ∧
   ({ st with errorLog := st.errorLog ++ [msg] } : MState α).input = st.input ∧
   ({ st with errorLog := st.errorLog ++ [msg] } : MState α).batch = st.batch ∧
   ({ st with errorLog := st.errorLog ++ [msg] } : MState α).queues = st.queues ∧
   ({ st with errorLog := st.errorLog ++ [msg] } : MState α).errorLog = st.errorLog ++ [msg] ∧
   Step cfg parse { st with errorLog := st.errorLog ++ [msg] }
     { st with errorLog := (st.errorLog ++ [msg]) ++ [msg] })

/-! ### Concrete runs used by the scenario claims -/

/-- Configuration of the concrete runs: one worker, the source's
`kMaxPagesInFlight = 10000` and `kBatchSize = 100`, no `--with-source`. -/
def cfg0 : Config := ⟨1, 10000, 100, false⟩

/-- Parser stub for concrete runs: always succeeds with the one-node AST `[0]`. -/
def parse0 : Str → ParseOutcome Nat := fun _ => ⟨.ok [0], 0, 0⟩

/-- Parser stub that always returns an error value, as `wikiparse` does on
`"\x7b\x7b\x7b"` with `returnError: true`. -/
def parseErr : Str → ParseOutcome Nat := fun _ => ⟨.error ("boom".toList), 7, 3⟩

/-- Scenario A input: the single record `title="Test"`, `source="Hello"`. -/
def pageTest : Page := ⟨"1".toList, "Test".toList, some ("Hello".toList)⟩

/-- Scenario B/C2 input: `title="Category:X"`, `source="anything"`. -/
def pageCategory : Page := ⟨"3".toList, "Category:X".toList, some ("anything".toList)⟩

/-- A genuinely excluded-namespace input: `title="Template:X"`. -/
def pageTemplate : Page := ⟨"4".toList, "Template:X".toList, some ("anything".toList)⟩

/-- Scenario C input: `title="foo"`, `source="#REDIRECT [[Bar baz]]"`. -/
def pageFoo : Page := ⟨"2".toList, "foo".toList, some ("#REDIRECT [[Bar baz]]".toList)⟩

/-- Scenario A run, step by step: read the single page (dispatched to worker
0), let the worker parse it, deliver the reply to `write`, close the stream. -/
def sA0 : MState Nat := initState cfg0 [pageTest]

def sA1 : MState Nat := handlePage cfg0 { sA0 with input := [] } pageTest

def sA2 : MState Nat := workerStep cfg0 parse0 sA1 0

def sA3 : MState Nat := deliverStep cfg0 sA2

def sA4 : MState Nat := { sA3 with closed := true }

/-- Scenario C run: read the single redirect page (written directly), close. -/
def sC0 : MState Nat := initState cfg0 [pageFoo]

def sC1 : MState Nat := handlePage cfg0 { sC0 with input := [] } pageFoo

def sC2 : MState Nat := { sC1 with closed := true }

example : excludedNamespace ("Template:X".toList) = true := by decide
example : excludedNamespace ("Category:X".toList) = false := by decide
example : excludedNamespace ("category:x".toList) = false := by decide
example : excludedNamespace ("Категория:X".toList) = false := by decide
example : excludedNamespace ("Шаблон:X".toList) = true := by decide
example : excludedNamespace ("Test".toList) = false := by decide
example : redirectTargetRaw ("#REDIRECT [[Bar baz]]".toList) = some ("Bar baz".toList) := by decide
example : redirectTargetRaw ("Hello".toList) = none := by decide
example : redirectTargetRaw ("#redirect:  [[A]] junk".toList) = some ("A".toList) := by decide
example : capitalizeFirst ("foo".toList) = "Foo".toList := by decide
example : jsTrim ("  Test ".toList) = "Test".toList := by decide

/-! ### Character-level lemmas -/

theorem char_toNat_ofNat {n : Nat} (h : n < 0xD800) : (Char.ofNat n).toNat = n := by
  simp [Char.ofNat, Char.toNat, Nat.isValidChar, h, Char.ofNatAux, UInt32.toNat,
    BitVec.toNat_ofNatLt]

theorem char_eq_iff_toNat {a b : Char} : a = b ↔ a.toNat = b.toNat :=
  ⟨fun h => by rw [h], fun h => Char.ext (UInt32.ext h)⟩

theorem toNat_jsToUpper (c : Char) :
    (jsToUpper c).toNat =
      if 97 ≤ c.toNat ∧ c.toNat ≤ 122 then c.toNat - 32
      else if 0x430 ≤ c.toNat ∧ c.toNat ≤ 0x44F then c.toNat - 0x20
      else if c.toNat = 0x451 then 0x401
      else c.toNat := by
  unfold jsToUpper
  split_ifs with h1 h2 h3
  · exact char_toNat_ofNat (by omega)
  · exact char_toNat_ofNat (by omega)
  · exact char_toNat_ofNat (by omega)
  · rfl

theorem jsToUpper_idem (c : Char) : jsToUpper (jsToUpper c) = jsToUpper c := by
  rw [char_eq_iff_toNat]
  simp only [toNat_jsToUpper]
  split_ifs <;> omega

theorem isUnicodeLetter_jsToUpper (c : Char) :
    isUnicodeLetter (jsToUpper c) = isUnicodeLetter c := by
  simp only [isUnicodeLetter, toNat_jsToUpper, decide_eq_decide]
  split_ifs <;> omega

theorem isWordChar_jsToUpper (c : Char) : isWordChar (jsToUpper c) = isWordChar c := by
  simp only [isWordChar, toNat_jsToUpper, decide_eq_decide]
  split_ifs <;> omega

theorem jsToUpper_eq_colon {c : Char} : jsToUpper c = ':' ↔ c = ':' := by
  rw [char_eq_iff_toNat, char_eq_iff_toNat, toNat_jsToUpper]
  have h : (':' : Char).toNat = 58 := by decide
  rw [h]
  split_ifs <;> omega

theorem beq_colon_jsToUpper (c : Char) : (jsToUpper c == ':') = (c == ':') := by
  by_cases hc : c = ':'
  · subst hc; decide
  · have h2 : ¬jsToUpper c = ':' := fun h => hc (jsToUpper_eq_colon.mp h)
    simp [hc, h2]

/-! ### Case-insensitivity of the namespace filter -/

theorem isEmpty_map {β γ : Type} (f : β → γ) (l : List β) :
    (l.map f).isEmpty = l.isEmpty := by
  cases l <;> rfl

theorem ciStartsWith_map (t pat : Str) :
    ciStartsWith (t.map jsToUpper) pat = ciStartsWith t pat := by
  unfold ciStartsWith
  rw [← List.map_take, List.map_map]
  have h : jsToUpper ∘ jsToUpper = jsToUpper := funext jsToUpper_idem
  rw [h]

theorem colonWordAfter_map (l : Str) :
    colonWordAfter (l.map jsToUpper) = colonWordAfter l := by
  match l with
  | [] => rfl
  | [_] => rfl
  | c :: d :: rest =>
    show (jsToUpper c == ':' && isWordChar (jsToUpper d)) = (c == ':' && isWordChar d)
    rw [beq_colon_jsToUpper, isWordChar_jsToUpper]

theorem excludedNamespace_map (t : Str) :
    excludedNamespace (t.map jsToUpper) = excludedNamespace t := by
  unfold excludedNamespace
  rw [ciStartsWith_map, ciStartsWith_map, List.takeWhile_map]
  have h : isUnicodeLetter ∘ jsToUpper = isUnicodeLetter := funext isUnicodeLetter_jsToUpper
  rw [h, isEmpty_map, List.length_map, ← List.map_drop, colonWordAfter_map]

/-! ### List bookkeeping lemmas -/

theorem sumLen_cons {β : Type} (a : List β) (l : List (List β)) :
    sumLen (a :: l) = a.length + sumLen l := by
  simp [sumLen]

theorem sumLen_append {β : Type} (l1 l2 : List (List β)) :
    sumLen (l1 ++ l2) = sumLen l1 + sumLen l2 := by
  simp [sumLen]

theorem sumLen_replicate_nil {β : Type} (n : Nat) :
    sumLen (List.replicate n ([] : List β)) = 0 := by
  induction n with
  | zero => rfl
  | succ k ih => simpa [List.replicate_succ, sumLen_cons] using ih

theorem sumLen_set {β : Type} (l : List (List β)) (i : Nat) (x : List β)
    (h : i < l.length) :
    sumLen (l.set i x) + (l.getD i []).length = sumLen l + x.length := by
  induction l generalizing i with
  | nil => simp at h
  | cons a tl ih =>
    cases i with
    | zero => simp [sumLen_cons]; omega
    | succ n =>
      have hn : n < tl.length := by simpa using h
      have hrec := ih n hn
      simp only [List.set_cons_succ, sumLen_cons, List.getD_cons_succ]
      omega

/-! ### Properties of the batcher -/

theorem pushEntry_nRead {α : Type} (cfg : Config) (st : MState α) (e : Entry α) :
    (pushEntry cfg st e).nRead = st.nRead := by
  simp only [pushEntry]; split <;> rfl

theorem pushEntry_nWritten {α : Type} (cfg : Config) (st : MState α) (e : Entry α) :
    (pushEntry cfg st e).nWritten = st.nWritten := by
  simp only [pushEntry]; split <;> rfl

theorem pushEntry_nSent {α : Type} (cfg : Config) (st : MState α) (e : Entry α) :
    (pushEntry cfg st e).nSentToWorkers = st.nSentToWorkers := by
  simp only [pushEntry]; split <;> rfl

theorem pushEntry_paused {α : Type} (cfg : Config) (st : MState α) (e : Entry α) :
    (pushEntry cfg st e).paused = st.paused := by
  simp only [pushEntry]; split <;> rfl

theorem pushEntry_queues {α : Type} (cfg : Config) (st : MState α) (e : Entry α) :
    (pushEntry cfg st e).queues = st.queues := by
  simp only [pushEntry]; split <;> rfl

theorem pushEntry_responses {α : Type} (cfg : Config) (st : MState α) (e : Entry α) :
    (pushEntry cfg st e).responses = st.responses := by
  simp only [pushEntry]; split <;> rfl

theorem pushEntry_store {α : Type} (cfg : Config) (st : MState α) (e : Entry α) :
    (pushEntry cfg st e).store = st.store := by
  simp only [pushEntry]; split <;> rfl

theorem pushEntry_dispatchLog {α : Type} (cfg : Config) (st : MState α) (e : Entry α) :
    (pushEntry cfg st e).dispatchLog = st.dispatchLog := by
  simp only [pushEntry]; split <;> rfl

theorem pushEntry_balance {α : Type} (cfg : Config) (st : MState α) (e : Entry α) :
    (pushEntry cfg st e).batch.length + sumLen (pushEntry cfg st e).pending =
      st.batch.length + 1 + sumLen st.pending := by
  simp only [pushEntry]
  split
  · simp [sumLen_append, sumLen_cons, sumLen]; omega
  · simp

theorem pushEntry_batchLt {α : Type} (cfg : Config) (st : MState α) (e : Entry α)
    (hbs : 0 < cfg.batchSize) :
    (pushEntry cfg st e).batch.length < cfg.batchSize := by
  simp only [pushEntry]
  split
  · simpa using hbs
  · next h =>
    simp only []
    simp at h
    simpa using h

theorem pushEntry_pendingSizes {α : Type} (cfg : Config) (st : MState α) (e : Entry α)
    (hlt : st.batch.length < cfg.batchSize)
    (hp : ∀ b ∈ st.pending, b.length = cfg.batchSize) :
    ∀ b ∈ (pushEntry cfg st e).pending, b.length = cfg.batchSize := by
  simp only [pushEntry]
  split
  · next h =>
    intro b hb
    simp only [List.mem_append, List.mem_singleton] at hb
    rcases hb with hb | hb
    · exact hp b hb
    · subst hb
      simp only [List.length_append, List.length_singleton] at h ⊢
      omega
  · intro b hb
    exact hp b hb

/-! ### Preservation of the invariant -/

theorem roundRobin_congr {l1 l2 : List Nat} (h : l1 = l2) (wc : Nat)
    (hr : ∀ j, (hh : j < l2.length) → l2.get ⟨j, hh⟩ = j % wc) :
    ∀ j, (hh : j < l1.length) → l1.get ⟨j, hh⟩ = j % wc := by
  subst h
  exact hr

theorem inv_handlePage {α : Type} {cfg : Config} {st : MState α} (p : Page)
    (hwc : 0 < cfg.workerCount) (hbs : 0 < cfg.batchSize)
    (hp : st.paused = false) (inv : Inv cfg st) : Inv cfg (handlePage cfg st p) := by
  by_cases hexc : excludedNamespace (jsTrim p.title) = true
  · simp only [handlePage, hexc, if_true]
    exact inv
  · rw [Bool.not_eq_true] at hexc
    cases hr : redirectTargetRaw (p.text.getD []) with
    | some target =>
      simp only [handlePage, hexc, Bool.false_eq_true, if_false, hr]
      have hb := pushEntry_balance cfg st
        ⟨capitalizeFirst (jsTrim p.title),
         .redirect p.id (jsTrim p.title) (capitalizeFirst target)
           (if cfg.withSource then some (p.text.getD []) else none)⟩
      refine ⟨?_, ?_, ?_, ?_, ?_, ?_, ?_, ?_⟩
      · have hc := inv.conserve
        dsimp only
        simp only [pushEntry_nWritten, pushEntry_nRead, pushEntry_queues, pushEntry_responses]
        omega
      · dsimp only
        exact pushEntry_batchLt cfg st _ hbs
      · dsimp only
        exact pushEntry_pendingSizes cfg st _ inv.batchLt inv.pendingSizes
      · dsimp only
        simpa only [pushEntry_queues] using inv.queuesLen
      · have := inv.pausedLt hp
        dsimp only
        simp only [pushEntry_nRead, pushEntry_nWritten]
        omega
      · intro hpf
        dsimp only at hpf ⊢
        simp only [pushEntry_nRead, pushEntry_nWritten] at hpf ⊢
        split at hpf
        · exact absurd hpf (by simp)
        · next hcond => omega
      · dsimp only
        simp only [pushEntry_nSent, pushEntry_dispatchLog]
        exact inv.sentLen
      · dsimp only
        exact roundRobin_congr (pushEntry_dispatchLog cfg st _) _ inv.roundRobin
    | none =>
      simp only [handlePage, hexc, Bool.false_eq_true, if_false, hr]
      have hiq : st.nSentToWorkers % cfg.workerCount < st.queues.length := by
        rw [inv.queuesLen]
        exact Nat.mod_lt _ hwc
      have hq := sumLen_set st.queues (st.nSentToWorkers % cfg.workerCount)
        (st.queues.getD (st.nSentToWorkers % cfg.workerCount) [] ++
          [(⟨p.id, jsTrim p.title, p.text.getD []⟩ : RawRecord)]) hiq
      refine ⟨?_, ?_, ?_, ?_, ?_, ?_, ?_, ?_⟩
      · have hc := inv.conserve
        dsimp only
        simp only [List.length_append, List.length_singleton] at hq
        omega
      · exact inv.batchLt
      · exact inv.pendingSizes
      · dsimp only
        simpa only [List.length_set] using inv.queuesLen
      · have := inv.pausedLt hp
        dsimp only
        omega
      · intro hpf
        dsimp only at hpf ⊢
        split at hpf
        · exact absurd hpf (by simp)
        · next hcond => omega
      · dsimp only
        simp only [List.length_append, List.length_singleton, inv.sentLen]
      · intro j h
        dsimp only at h ⊢
        simp only [List.length_append, List.length_singleton] at h
        by_cases hj : j < st.dispatchLog.length
        · rw [List.get_append j hj]
          exact inv.roundRobin j hj
        · have hj2 : j = st.dispatchLog.length := by omega
          subst hj2
          rw [List.get_of_append rfl rfl]
          rw [inv.sentLen]

theorem inv_init {α : Type} (cfg : Config) (pages : List Page)
    (hbs : 0 < cfg.batchSize) (hmf : 0 < cfg.maxInFlight) :
    Inv cfg (initState (α := α) cfg pages) := by
  refine ⟨?_, ?_, ?_, ?_, ?_, ?_, ?_, ?_⟩
  · simp [initState, sumLen, List.map_replicate]
  · simpa [initState] using hbs
  · intro b hb
    simp [initState] at hb
  · simp [initState]
  · simp [initState]
  · intro h
    simpa [initState] using hmf
  · simp [initState]
  · intro j h
    simp [initState] at h

theorem inv_step {α : Type} {cfg : Config} {parse : Str → ParseOutcome α}
    {st st2 : MState α} (hwc : 0 < cfg.workerCount) (hbs : 0 < cfg.batchSize)
    (inv : Inv cfg st) (h : Step cfg parse st st2) : Inv cfg st2 := by
  cases h with
  | read p rest ha hc hp hi =>
    have inv2 : Inv cfg { st with input := rest } :=
      ⟨inv.conserve, inv.batchLt, inv.pendingSizes, inv.queuesLen, inv.gapLe,
       inv.pausedLt, inv.sentLen, inv.roundRobin⟩
    exact inv_handlePage p hwc hbs hp inv2
  | worker i ha hi hne =>
    cases hq : st.queues.getD i [] with
    | nil => exact absurd hq hne
    | cons m rest =>
      simp only [workerStep, hq]
      have hiq : i < st.queues.length := by
        rw [inv.queuesLen]
        exact hi
      have hs := sumLen_set st.queues i rest hiq
      rw [hq] at hs
      have hrep : ((workerOnMessage cfg parse (WorkerMsg.record m)).reply.toList).length = 1 :=
        rfl
      refine ⟨?_, inv.batchLt, inv.pendingSizes, ?_, inv.gapLe, inv.pausedLt,
        inv.sentLen, inv.roundRobin⟩
      · have hcv := inv.conserve
        dsimp only
        simp only [List.length_append, List.length_cons] at hs ⊢
        omega
      · dsimp only
        simpa only [List.length_set] using inv.queuesLen
  | deliver ha hne =>
    cases hq : st.responses with
    | nil => exact absurd hq hne
    | cons e rest =>
      simp only [deliverStep, hq]
      have hb := pushEntry_balance cfg { st with responses := rest } e
      refine ⟨?_, ?_, ?_, ?_, ?_, ?_, ?_, ?_⟩
      · have hcv := inv.conserve
        rw [hq] at hcv
        simp only [List.length_cons] at hcv
        simp only [pushEntry_nWritten, pushEntry_nRead, pushEntry_queues, pushEntry_responses]
        dsimp only at hb ⊢
        omega
      · exact pushEntry_batchLt _ _ _ hbs
      · exact pushEntry_pendingSizes _ _ _ inv.batchLt inv.pendingSizes
      · rw [pushEntry_queues]
        exact inv.queuesLen
      · rw [pushEntry_nRead, pushEntry_nWritten]
        exact inv.gapLe
      · intro hpf
        rw [pushEntry_paused] at hpf
        rw [pushEntry_nRead, pushEntry_nWritten]
        exact inv.pausedLt hpf
      · rw [pushEntry_nSent, pushEntry_dispatchLog]
        exact inv.sentLen
      · exact roundRobin_congr (pushEntry_dispatchLog _ _ _) _ inv.roundRobin
  | flushDone ha hne =>
    cases hq : st.pending with
    | nil => exact absurd hq hne
    | cons b rest =>
      simp only [flushStep, hq]
      have hlen : b.length = cfg.batchSize := by
        refine inv.pendingSizes b ?_
        rw [hq]
        exact List.mem_cons_self b rest
      have hcv := inv.conserve
      rw [hq] at hcv
      rw [sumLen_cons] at hcv
      refine ⟨?_, inv.batchLt, ?_, inv.queuesLen, ?_, ?_, inv.sentLen, inv.roundRobin⟩
      · dsimp only
        omega
      · intro b2 hb2
        refine inv.pendingSizes b2 ?_
        rw [hq]
        exact List.mem_cons_of_mem b hb2
      · have := inv.gapLe
        dsimp only
        omega
      · intro hpf
        have hg := inv.gapLe
        dsimp only at hpf ⊢
        split at hpf
        · next hcond => omega
        · next hcond =>
          have := inv.pausedLt hpf
          omega
  | closeStream ha hc hi =>
    exact ⟨inv.conserve, inv.batchLt, inv.pendingSizes, inv.queuesLen, inv.gapLe,
      inv.pausedLt, inv.sentLen, inv.roundRobin⟩
  | xmlError msg ha =>
    exact ⟨inv.conserve, inv.batchLt, inv.pendingSizes, inv.queuesLen, inv.gapLe,
      inv.pausedLt, inv.sentLen, inv.roundRobin⟩
  | streamError ha hc =>
    exact ⟨inv.conserve, inv.batchLt, inv.pendingSizes, inv.queuesLen, inv.gapLe,
      inv.pausedLt, inv.sentLen, inv.roundRobin⟩

theorem reachable_inv {α : Type} {cfg : Config} {parse : Str → ParseOutcome α}
    {pages : List Page} {st : MState α}
    (hwc : 0 < cfg.workerCount) (hbs : 0 < cfg.batchSize) (hmf : 0 < cfg.maxInFlight)
    (h : Reachable cfg parse pages st) : Inv cfg st := by
  induction h with
  | refl => exact inv_init cfg pages hbs hmf
  | tail hsteps hstep ih => exact inv_step hwc hbs ih hstep

/-! ### Claim theorems -/

/-- Claim C6: `canonical` (the source's `capitalizeFirst`) changes at most the
case of the first character — the tail and the length are unchanged and the
result agrees with the input after case folding — and it is idempotent:
`canonical(canonical(t)) = canonical(t)`. -/
theorem c6_canonical_case_idem (t : Str) :
    (capitalizeFirst t).drop 1 = t.drop 1 ∧
    (capitalizeFirst t).length = t.length ∧
    (capitalizeFirst t).map jsToUpper = t.map jsToUpper ∧
    capitalizeFirst (capitalizeFirst t) = capitalizeFirst t := by
  cases t with
  | nil => exact ⟨rfl, rfl, rfl, rfl⟩
  | cons c rest =>
    refine ⟨rfl, rfl, ?_, ?_⟩
    · show jsToUpper (jsToUpper c) :: rest.map jsToUpper = jsToUpper c :: rest.map jsToUpper
      rw [jsToUpper_idem]
    · show jsToUpper (jsToUpper c) :: rest = jsToUpper c :: rest
      rw [jsToUpper_idem]

/-- Claim C7 counterexample: the namespace filter is case-INsensitive, not
case-sensitive, and the exception is matched in two spellings. `category:x`,
which a case-sensitive match of the single exception `Category:` would
exclude, is not excluded by the code; the Cyrillic spelling `Категория:X`
(in any case) is a second explicitly allowed prefix; `Шаблон:X` shows the
exclusion pattern itself matching beyond this. -/
theorem c7_counterexample :
    excludedNamespace ("category:x".toList) = false ∧
    excludedNamespace ("Категория:X".toList) = false ∧
    excludedNamespace ("катЕГОрия:X".toList) = false ∧
    excludedNamespace ("Шаблон:X".toList) = true := by
  refine ⟨by decide, by decide, by decide, by decide⟩

/-- Claim C7 (amended): the namespace-exclusion decision is case-insensitive —
uppercasing a title never changes the decision — and the allowed exception
namespace is matched in two spellings, `Category:` and `Категория:`, while
other `letter+:wordchar` titles are excluded. -/
theorem c7_amended_case_insensitive (t : Str) :
    excludedNamespace (t.map jsToUpper) = excludedNamespace t ∧
    excludedNamespace ("Category:X".toList) = false ∧
    excludedNamespace ("Категория:X".toList) = false ∧
    excludedNamespace ("Template:X".toList) = true :=
  ⟨excludedNamespace_map t, by decide, by decide, by decide⟩

/-- Claim C2 counterexample: a record titled `Category:X` is NOT excluded —
the negative lookahead exempts the Category prefix from the namespace
exclusion — so the page handler dispatches it to worker 0 and it is counted
and queued, contradicting the claim that it is never dispatched. -/
theorem c2_counterexample :
    excludedNamespace (jsTrim ("Category:X".toList)) = false ∧
    (handlePage cfg0 (initState cfg0 [] : MState Nat) pageCategory).nSentToWorkers = 1 ∧
    (handlePage cfg0 (initState cfg0 [] : MState Nat) pageCategory).dispatchLog = [0] ∧
    (handlePage cfg0 (initState cfg0 [] : MState Nat) pageCategory).queues =
      [[⟨"3".toList, "Category:X".toList, "anything".toList⟩]] := by
  refine ⟨by decide, by decide, by decide, by decide⟩

/-- Claim C2 (amended): a record whose title matches the reserved-namespace
pattern — which excludes the explicitly allowed `Category:`/`Категория:`
prefixes, e.g. `Template:X` — is dropped entirely: the page handler returns
the master state unchanged, so it is never counted, dispatched or persisted;
a `Category:`-prefixed title is not excluded and is processed normally. -/
theorem c2_amended_excluded_dropped (α : Type) (cfg : Config) (st : MState α) (p : Page)
    (hexc : excludedNamespace (jsTrim p.title) = true) :
    handlePage cfg st p = st ∧
    excludedNamespace (jsTrim ("Template:X".toList)) = true ∧
    excludedNamespace (jsTrim ("Category:X".toList)) = false := by
  refine ⟨?_, by decide, by decide⟩
  simp only [handlePage, hexc, if_true]

/-- Witness for the amended C2: the concrete excluded record `Template:X`
leaves the initial state untouched. -/
theorem c2_amended_excluded_dropped_witness :
    handlePage cfg0 (initState cfg0 []) pageTemplate = (initState cfg0 [] : MState Nat) ∧
    excludedNamespace (jsTrim ("Template:X".toList)) = true ∧
    excludedNamespace (jsTrim ("Category:X".toList)) = false :=
  c2_amended_excluded_dropped Nat cfg0 (initState cfg0 []) pageTemplate (by decide)

/-- Claim C4: at every reachable instant,
`nRead - nWritten ≤ maxInFlight + batchSize - 1` (the code in fact keeps it
at `maxInFlight` or below); accepting a record that makes
`nRead - nWritten ≥ maxInFlight` pauses the stream; a flush callback that
finds `nRead - nWritten ≤ maxInFlight` resumes it. -/
theorem c4_flow_control {α : Type} (cfg : Config) (parse : Str → ParseOutcome α)
    (pages : List Page) (st : MState α)
    (hwc : 0 < cfg.workerCount) (hbs : 0 < cfg.batchSize) (hmf : 0 < cfg.maxInFlight)
    (h : Reachable cfg parse pages st) :
    FlowConclusion α cfg st := by
  have inv := reachable_inv hwc hbs hmf h
  refine ⟨?_, ?_, ?_⟩
  · have := inv.gapLe
    omega
  · intro s p hexc hge
    cases hr : redirectTargetRaw (p.text.getD []) with
    | some target =>
      simp only [handlePage, hexc, Bool.false_eq_true, if_false, hr] at hge ⊢
      simp only [pushEntry_nWritten, pushEntry_nRead] at hge ⊢
      rw [if_pos hge]
    | none =>
      simp only [handlePage, hexc, Bool.false_eq_true, if_false, hr] at hge ⊢
      rw [if_pos hge]
  · intro s hne hle
    cases hqp : s.pending with
    | nil => exact absurd hqp hne
    | cons b rest =>
      simp only [flushStep, hqp] at hle ⊢
      rw [if_pos hle]

/-- Witness for C4 at the initial state of a concrete run. -/
theorem c4_flow_control_witness : FlowConclusion Nat cfg0 (initState cfg0 []) :=
  c4_flow_control cfg0 parse0 [] (initState cfg0 []) (by decide) (by decide) (by decide)
    Relation.ReflTransGen.refl

/-- Claim C9: in every reachable state the send counter equals the number of
dispatches so far and the `j`-th dispatched record went to worker
`j mod workerCount`; the page handler increments the counter exactly once for
a non-excluded non-redirect record and never for redirects or dropped
records. -/
theorem c9_round_robin {α : Type} (cfg : Config) (parse : Str → ParseOutcome α)
    (pages : List Page) (st : MState α)
    (hwc : 0 < cfg.workerCount) (hbs : 0 < cfg.batchSize) (hmf : 0 < cfg.maxInFlight)
    (h : Reachable cfg parse pages st) :
    RoundRobinConclusion α cfg st := by
  have inv := reachable_inv hwc hbs hmf h
  refine ⟨inv.sentLen, inv.roundRobin, ?_, ?_⟩
  · intro s p hexc hr
    simp only [handlePage, hexc, Bool.false_eq_true, if_false, hr]
    exact ⟨trivial, trivial⟩
  · intro s p hcase
    rcases hcase with hexc | hrne
    · simp only [handlePage, hexc, if_true]
      exact ⟨trivial, trivial⟩
    · cases hr : redirectTargetRaw (p.text.getD []) with
      | none => exact absurd hr hrne
      | some target =>
        by_cases hexc : excludedNamespace (jsTrim p.title) = true
        · simp only [handlePage, hexc, if_true]
          exact ⟨trivial, trivial⟩
        · rw [Bool.not_eq_true] at hexc
          simp only [handlePage, hexc, Bool.false_eq_true, if_false, hr]
          refine ⟨?_, ?_⟩
          · dsimp only
            rw [pushEntry_nSent]
          · dsimp only
            rw [pushEntry_dispatchLog]

/-- Witness for C9 at the initial state of a concrete run. -/
theorem c9_round_robin_witness : RoundRobinConclusion Nat cfg0 (initState cfg0 []) :=
  c9_round_robin cfg0 parse0 [] (initState cfg0 []) (by decide) (by decide) (by decide)
    Relation.ReflTransGen.refl

/-- Claim C10: in every reachable state `nWritten ≤ nRead` — every flushed
entry originates from a distinct accepted record, so the written count never
overtakes the accepted count. It follows from the conservation invariant
`nWritten + |batch| + |pending| + |queues| + |responses| = nRead`. -/
theorem c10_written_le_read {α : Type} (cfg : Config) (parse : Str → ParseOutcome α)
    (pages : List Page) (st : MState α)
    (hwc : 0 < cfg.workerCount) (hbs : 0 < cfg.batchSize) (hmf : 0 < cfg.maxInFlight)
    (h : Reachable cfg parse pages st) : st.nWritten ≤ st.nRead := by
  have inv := reachable_inv hwc hbs hmf h
  have := inv.conserve
  omega

/-- Witness for C10 at the initial state of a concrete run. -/
theorem c10_written_le_read_witness :
    (initState cfg0 [] : MState Nat).nWritten ≤ (initState cfg0 [] : MState Nat).nRead :=
  c10_written_le_read cfg0 parse0 [] (initState cfg0 []) (by decide) (by decide) (by decide)
    Relation.ReflTransGen.refl

/-- Claim C5: when the external parser returns an error value for a record,
the worker logs the record's title, substitutes the empty AST `[]` in the
reply it sends back, and does not disconnect — the handler ends normally and
the worker keeps serving subsequent messages. -/
theorem c5_worker_recovers {α : Type} (cfg : Config) (parse : Str → ParseOutcome α)
    (m : RawRecord) (e : Str) (herr : (parse m.source).result = .error e) :
    workerOnMessage cfg parse (.record m) =
      { reply := some ⟨capitalizeFirst m.title,
          .page m.id m.title [] (parse m.source).parseTime
            (parse m.source).backtrackingCount
            (if cfg.withSource then some m.source else none)⟩,
        disconnected := false,
        logged := [m.title] } := by
  simp only [workerOnMessage, herr]

/-- Witness for C5: a concrete always-erroring parser on the record
`title="Broken", source="\x7b\x7b\x7b"`. -/
theorem c5_worker_recovers_witness :
    workerOnMessage cfg0 parseErr (.record ⟨"9".toList, "Broken".toList, "\x7b\x7b\x7b".toList⟩) =
      { reply := some ⟨capitalizeFirst ("Broken".toList),
          .page ("9".toList) ("Broken".toList) []
            (parseErr ("\x7b\x7b\x7b".toList)).parseTime
            (parseErr ("\x7b\x7b\x7b".toList)).backtrackingCount
            (if cfg0.withSource then some ("\x7b\x7b\x7b".toList) else none)⟩,
        disconnected := false,
        logged := [("Broken".toList)] } :=
  c5_worker_recovers cfg0 parseErr ⟨"9".toList, "Broken".toList, "\x7b\x7b\x7b".toList⟩
    ("boom".toList) rfl

/-- Claim C8: a hard byte-stream/decompression failure is fatal — the run
moves to the aborted state, from which no further step exists — while an XML
element error is only logged: it appends the message to the error log,
changes nothing else, and the run can continue stepping. -/
theorem c8_stream_error_fatal {α : Type} (cfg : Config) (parse : Str → ParseOutcome α)
    (st : MState α) (msg : Str) (ha : st.aborted = false) (hc : st.closed = false) :
    ErrorConclusion α cfg parse st msg := by
  refine ⟨⟨Step.streamError st ha hc, rfl, ?_⟩,
    Step.xmlError st msg ha, ha, rfl, rfl, rfl, rfl, rfl, rfl, rfl,
    Step.xmlError { st with errorLog := st.errorLog ++ [msg] } msg ha⟩
  intro st2 hstep
  cases hstep <;> simp_all

/-- Witness for C8 at the initial state of a concrete run. -/
theorem c8_stream_error_fatal_witness :
    ErrorConclusion Nat cfg0 parse0 (initState cfg0 []) ("bad".toList) :=
  c8_stream_error_fatal cfg0 parse0 (initState cfg0 []) ("bad".toList) rfl rfl

/-- Claim C1 (code bug): the run over the single accepted record
`title="Test", source="Hello"` reaches, after the worker reply is delivered
and the stream closes, a fully drained final state — input consumed, worker
queues and reply channel empty, no outstanding `db.batch` — whose store is
EMPTY: the parsed entry (with its non-empty AST) is stranded in the final
partial batch, because `write` only flushes when the batch reaches
`kBatchSize = 100` and nothing flushes the remainder at `stream.on('close')`.
The claim's Scenario A (`store` holds key `"Test"`) fails on the code. -/
theorem c1_final_partial_batch_lost :
    Reachable cfg0 parse0 [pageTest] sA4 ∧
    sA4.closed = true ∧ sA4.input = [] ∧ sumLen sA4.queues = 0 ∧
    sA4.responses = [] ∧ sA4.pending = [] ∧
    sA4.store = [] ∧ storeGet sA4.store ("Test".toList) = none ∧
    sA4.batch = [⟨"Test".toList,
      .page ("1".toList) ("Test".toList) [0] 0 0 none⟩] := by
  constructor
  · have h1 : Step cfg0 parse0 sA0 sA1 :=
      Step.read sA0 pageTest [] (by decide) (by decide) (by decide) (by decide)
    have h2 : Step cfg0 parse0 sA1 sA2 :=
      Step.worker sA1 0 (by decide) (by decide) (by decide)
    have h3 : Step cfg0 parse0 sA2 sA3 :=
      Step.deliver sA2 (by decide) (by decide)
    have h4 : Step cfg0 parse0 sA3 sA4 :=
      Step.closeStream sA3 (by decide) (by decide) (by decide)
    exact Relation.ReflTransGen.head h1 (Relation.ReflTransGen.head h2
      (Relation.ReflTransGen.head h3 (Relation.ReflTransGen.single h4)))
  · refine ⟨by decide, by decide, by decide, by decide, by decide, by decide,
      by decide, by decide⟩

/-- Claim C3 (code bug): the redirect record `title="foo",
source="#REDIRECT [[Bar baz]]"` is detected by the redirect pattern (capture
`"Bar baz"`), is never sent to a worker (`nSentToWorkers = 0`, queues empty),
and the entry `key="Foo"` with `redirectTo="Bar baz"` is handed to `write` —
but after the stream closes the store is still EMPTY: the entry is stranded
in the final partial batch that is never flushed, so the claim's
"persisted ... yields the key" fails on the code. -/
theorem c3_redirect_direct_but_not_persisted :
    Reachable cfg0 parse0 [pageFoo] sC2 ∧
    redirectTargetRaw ("#REDIRECT [[Bar baz]]".toList) = some ("Bar baz".toList) ∧
    sC2.nSentToWorkers = 0 ∧ sumLen sC2.queues = 0 ∧
    sC2.batch = [⟨"Foo".toList,
      .redirect ("2".toList) ("foo".toList) ("Bar baz".toList) none⟩] ∧
    sC2.closed = true ∧ sC2.input = [] ∧ sC2.pending = [] ∧
    sC2.store = [] ∧ storeGet sC2.store ("Foo".toList) = none := by
  constructor
  · have h1 : Step cfg0 parse0 sC0 sC1 :=
      Step.read sC0 pageFoo [] (by decide) (by decide) (by decide) (by decide)
    have h2 : Step cfg0 parse0 sC1 sC2 :=
      Step.closeStream sC1 (by decide) (by decide) (by decide)
    exact Relation.ReflTransGen.head h1 (Relation.ReflTransGen.single h2)
  · refine ⟨by decide, by decide, by decide, by decide, by decide, by decide,
      by decide, by decide, by decide⟩

end WikiImport
